import Mathlib

/-!
Verification of the Logto OIDC client core (token decode subsystem and
sign-in/sign-out client lifecycle) against its natural-language specification.

The TypeScript sources are shallowly embedded:
the pure token-decoding pipeline of src/core/utils (fullfillBase64,
decodeToken) becomes executable Lean functions, with the platform
primitives it calls (String.prototype.split, Buffer.from(-, base64),
Buffer.toString(utf8), escape, decodeURIComponent, JSON.parse,
JSON.stringify, superstruct schema assertion) modelled byte- and
character-exactly on the inputs the program feeds them; the stateful
LogtoClient methods (signOut, the signInSession accessor, getOidcConfig)
become explicit state-passing functions or, for the concurrent
getOidcConfig, a small event-interleaving semantics.
-/

/-! ## JS string split on a dot

Model of the JavaScript expression token.split('.') as used by
decodeToken in src/core/utils: splitting on the single-character
separator '.', where an empty string yields a singleton list holding
the empty string. -/

def splitDot : List Char → List (List Char)
  | [] => [[]]
  | c :: rest =>
    if c = '.' then [] :: splitDot rest
    else
      match splitDot rest with
      | [] => [[c]]
      | seg :: segs => (c :: seg) :: segs

/-! ## Base64 (Node Buffer semantics)

The source decodes the payload with
Buffer.from(fullfillBase64(payloadString), 'base64').
Node's base64 decoder is lenient: characters outside the standard
alphabet (including '=' padding) are skipped, and a trailing group of
2 or 3 sextets yields 1 or 2 bytes, so unpadded input is accepted.
The model filters the input through the alphabet table and regroups
sextets into bytes exactly that way. -/

def b64CharVal (c : Char) : Option Nat :=
  if 'A' ≤ c ∧ c ≤ 'Z' then some (c.toNat - 65)
  else if 'a' ≤ c ∧ c ≤ 'z' then some (c.toNat - 97 + 26)
  else if '0' ≤ c ∧ c ≤ '9' then some (c.toNat - 48 + 52)
  else if c = '+' then some 62
  else if c = '/' then some 63
  else none

/-- Regroups a sextet stream into bytes: each full group of four sextets
gives three bytes; a trailing group of two or three sextets gives one or
two bytes; a lone trailing sextet is dropped (Node behaviour). -/
def b64Go : List Nat → List Nat
  | s1 :: s2 :: s3 :: s4 :: rest =>
    (s1 * 4 + s2 / 16) :: ((s2 % 16) * 16 + s3 / 4) :: ((s3 % 4) * 64 + s4) :: b64Go rest
  | [s1, s2] => [s1 * 4 + s2 / 16]
  | [s1, s2, s3] => [s1 * 4 + s2 / 16, (s2 % 16) * 16 + s3 / 4]
  | [_] => []
  | [] => []

/-- Model of Buffer.from(s, 'base64') from src/core/utils decodeToken:
skip non-alphabet characters (in particular '=' padding), then regroup. -/
def nodeBase64Decode (s : String) : List Nat :=
  b64Go (s.data.filterMap b64CharVal)

/-- Standard base64 alphabet table (index 0..63 to character). -/
def b64StdChar (v : Nat) : Char :=
  if v < 26 then Char.ofNat (65 + v)
  else if v < 52 then Char.ofNat (97 + (v - 26))
  else if v < 62 then Char.ofNat (48 + (v - 52))
  else if v = 62 then '+'
  else '/'

/-- URL-safe base64 alphabet table: as the standard one but with '-' and
'_' in place of '+' and '/'. -/
def b64UrlChar (v : Nat) : Char :=
  if v = 62 then '-'
  else if v = 63 then '_'
  else b64StdChar v

/-- Splits a byte stream into sextets: each group of three bytes gives
four sextets; a trailing group of one or two bytes gives two or three
sextets (the unpadded base64 shape). -/
def b64Sextets : List Nat → List Nat
  | b1 :: b2 :: b3 :: rest =>
    (b1 / 4) :: ((b1 % 4) * 16 + b2 / 16) :: ((b2 % 16) * 4 + b3 / 64) :: (b3 % 64) :: b64Sextets rest
  | [b1, b2] => [b1 / 4, (b1 % 4) * 16 + b2 / 16, (b2 % 16) * 4]
  | [b1] => [b1 / 4, (b1 % 4) * 16]
  | [] => []

/-- Modelled from the spec: the unpadded URL-safe base64 encoding a token
issuer applies to the payload bytes (the inverse direction of the
decode pipeline; it is not part of src/, which only decodes). -/
def b64UrlEncode (bs : List Nat) : List Char :=
  (b64Sextets bs).map b64UrlChar

/-! ## fullfillBase64 (src/core/utils) -/

/-- Direct translation of fullfillBase64 from src/core/utils: appends
base64 padding, but only when the total input length is exactly 2 or
exactly 3. -/
def fullfillBase64 (input : String) : String :=
  if input.length = 2 then input ++ "=="
  else if input.length = 3 then input ++ "="
  else input

/-- Model of the two global regex replacements in decodeToken (dash to
plus, underscore to slash): map the URL-safe alphabet back to the
standard one. -/
def urlToStdChar (c : Char) : Char :=
  if c = '-' then '+' else if c = '_' then '/' else c

/-- Base64 stage of decodeToken: alphabet replacement, the
fullfillBase64 padding fix-up, then the Node base64 decode. -/
def base64Stage (payload : List Char) : List Nat :=
  nodeBase64Decode (fullfillBase64 (String.mk (payload.map urlToStdChar)))

/-! ## UTF-8 (Buffer.toString and the token issuer's encoder)

decodeToken converts the decoded bytes to a JS string with
Buffer.toString(), which performs UTF-8 decoding with U+FFFD
replacement on invalid sequences.  The decoder below is fuelled so
that it is structurally recursive and kernel-reducible; the fuel is
always instantiated to more than the byte count. -/

def utf8EncodeChar (c : Char) : List Nat :=
  let n := c.toNat
  if n < 0x80 then [n]
  else if n < 0x800 then [0xC0 + n / 64, 0x80 + n % 64]
  else if n < 0x10000 then [0xE0 + n / 4096, 0x80 + (n / 64) % 64, 0x80 + n % 64]
  else [0xF0 + n / 262144, 0x80 + (n / 4096) % 64, 0x80 + (n / 64) % 64, 0x80 + n % 64]

/-- Modelled from the spec: the UTF-8 byte encoding a token issuer
applies to the JSON text before base64url-encoding it (the inverse of
the Buffer.toString decoding performed by decodeToken). -/
def utf8Encode : List Char → List Nat
  | [] => []
  | c :: cs => utf8EncodeChar c ++ utf8Encode cs

/-- Continuation-byte test for UTF-8. -/
def utf8Cont (b : Nat) : Bool :=
  decide (0x80 ≤ b ∧ b ≤ 0xBF)

def utf8Repl : Char := Char.ofNat 0xFFFD

def utf8DecodeAux : Nat → List Nat → List Char
  | 0, _ => []
  | _ + 1, [] => []
  | fuel + 1, b :: rest =>
    if b < 0x80 then Char.ofNat b :: utf8DecodeAux fuel rest
    else if 0xC2 ≤ b ∧ b ≤ 0xDF then
      match rest with
      | b2 :: rest2 =>
        if utf8Cont b2 then
          Char.ofNat ((b - 0xC0) * 64 + (b2 - 0x80)) :: utf8DecodeAux fuel rest2
        else utf8Repl :: utf8DecodeAux fuel rest
      | [] => [utf8Repl]
    else if 0xE0 ≤ b ∧ b ≤ 0xEF then
      match rest with
      | b2 :: b3 :: rest3 =>
        if (utf8Cont b2 && utf8Cont b3)
            && !(b = 0xE0 && b2 < 0xA0) && !(b = 0xED && 0xA0 ≤ b2) then
          Char.ofNat ((b - 0xE0) * 4096 + (b2 - 0x80) * 64 + (b3 - 0x80))
            :: utf8DecodeAux fuel rest3
        else utf8Repl :: utf8DecodeAux fuel rest
      | _ => utf8Repl :: utf8DecodeAux fuel rest
    else if 0xF0 ≤ b ∧ b ≤ 0xF4 then
      match rest with
      | b2 :: b3 :: b4 :: rest4 =>
        if ((utf8Cont b2 && utf8Cont b3) && utf8Cont b4)
            && !(b = 0xF0 && b2 < 0x90) && !(b = 0xF4 && 0x90 ≤ b2) then
          Char.ofNat ((b - 0xF0) * 262144 + (b2 - 0x80) * 4096 + (b3 - 0x80) * 64 + (b4 - 0x80))
            :: utf8DecodeAux fuel rest4
        else utf8Repl :: utf8DecodeAux fuel rest
      | _ => utf8Repl :: utf8DecodeAux fuel rest
    else utf8Repl :: utf8DecodeAux fuel rest

/-- Model of Buffer.toString() (UTF-8 with replacement) applied by
decodeToken to the base64-decoded payload bytes. -/
def utf8DecodeLossy (bs : List Nat) : List Char :=
  utf8DecodeAux (bs.length + 1) bs

/-! ## escape and decodeURIComponent

decodeToken computes decodeURIComponent(escape(text)).  escape
percent-encodes every UTF-16 code unit outside its unreserved set
(letters, digits and the seven marks at-sign, asterisk, underscore,
plus, minus, dot, slash): units below 0x100 become a two-digit escape
and larger units a percent-u escape.  decodeURIComponent decodes
two-digit percent escapes as UTF-8 octets (rejecting percent-u) and
throws URIError, modelled as none, when the octets do not form valid
UTF-8 or an escape is malformed. -/

def escapeUnreserved (c : Char) : Bool :=
  ('A' ≤ c && c ≤ 'Z') || ('a' ≤ c && c ≤ 'z') || ('0' ≤ c && c ≤ '9')
    || c = '@' || c = '*' || c = '_' || c = '+' || c = '-' || c = '.' || c = '/'

/-- Uppercase hexadecimal digit, as produced by JS escape. -/
def hexUp (n : Nat) : Char :=
  if n < 10 then Char.ofNat (48 + n) else Char.ofNat (55 + n)

def escapeJsChar (c : Char) : List Char :=
  if escapeUnreserved c then [c]
  else if c.toNat < 256 then ['%', hexUp (c.toNat / 16), hexUp (c.toNat % 16)]
  else ['%', 'u', hexUp (c.toNat / 4096 % 16), hexUp (c.toNat / 256 % 16),
        hexUp (c.toNat / 16 % 16), hexUp (c.toNat % 16)]

/-- Model of the global escape function applied by decodeToken. -/
def escapeJs : List Char → List Char
  | [] => []
  | c :: cs => escapeJsChar c ++ escapeJs cs

/-- Hexadecimal digit value, accepting both cases (as both
decodeURIComponent and JSON unicode escapes do). -/
def hexVal (c : Char) : Option Nat :=
  if '0' ≤ c ∧ c ≤ '9' then some (c.toNat - 48)
  else if 'a' ≤ c ∧ c ≤ 'f' then some (c.toNat - 97 + 10)
  else if 'A' ≤ c ∧ c ≤ 'F' then some (c.toNat - 65 + 10)
  else none

/-- First phase of decodeURIComponent: scans the input into literal
characters and percent-escape octets; a percent sign not followed by
two hexadecimal digits is a URIError (none). -/
def pctTokens : List Char → Option (List (Sum Char Nat))
  | [] => some []
  | c :: rest0 =>
    if c = '%' then
      match rest0 with
      | h1 :: h2 :: rest =>
        match hexVal h1, hexVal h2 with
        | some a, some b => (pctTokens rest).map (Sum.inr (a * 16 + b) :: ·)
        | _, _ => none
      | _ => none
    else (pctTokens rest0).map (Sum.inl c :: ·)

/-- Second phase of decodeURIComponent: escape octets must form valid
UTF-8 sequences whose continuation octets are themselves escapes
(a literal character cannot continue a sequence); anything invalid is
a URIError (none).  Fuelled for kernel-reducible structural
recursion. -/
def utf8Assemble : Nat → List (Sum Char Nat) → Option (List Char)
  | 0, _ => none
  | _ + 1, [] => some []
  | fuel + 1, t :: ts =>
    match t with
    | .inl ch => (utf8Assemble fuel ts).map (ch :: ·)
    | .inr b =>
      if b < 0x80 then (utf8Assemble fuel ts).map (Char.ofNat b :: ·)
      else if 0xC2 ≤ b ∧ b ≤ 0xDF then
        match ts with
        | .inr b2 :: ts2 =>
          if utf8Cont b2 then
            (utf8Assemble fuel ts2).map (Char.ofNat ((b - 0xC0) * 64 + (b2 - 0x80)) :: ·)
          else none
        | _ => none
      else if 0xE0 ≤ b ∧ b ≤ 0xEF then
        match ts with
        | .inr b2 :: .inr b3 :: ts3 =>
          if (utf8Cont b2 && utf8Cont b3)
              && !(b = 0xE0 && b2 < 0xA0) && !(b = 0xED && 0xA0 ≤ b2) then
            (utf8Assemble fuel ts3).map
              (Char.ofNat ((b - 0xE0) * 4096 + (b2 - 0x80) * 64 + (b3 - 0x80)) :: ·)
          else none
        | _ => none
      else if 0xF0 ≤ b ∧ b ≤ 0xF4 then
        match ts with
        | .inr b2 :: .inr b3 :: .inr b4 :: ts4 =>
          if ((utf8Cont b2 && utf8Cont b3) && utf8Cont b4)
              && !(b = 0xF0 && b2 < 0x90) && !(b = 0xF4 && 0x90 ≤ b2) then
            (utf8Assemble fuel ts4).map
              (Char.ofNat ((b - 0xF0) * 262144 + (b2 - 0x80) * 4096
                + (b3 - 0x80) * 64 + (b4 - 0x80)) :: ·)
          else none
        | _ => none
      else none

/-- Model of the global decodeURIComponent function applied by
decodeToken; none models a thrown URIError. -/
def decodeURIComponentJs (cs : List Char) : Option (List Char) :=
  match pctTokens cs with
  | none => none
  | some ts => utf8Assemble (ts.length + 1) ts

/-! ## JSON values and JSON.parse

decodeToken calls JSON.parse on the decoded text and the signInSession
accessor calls it on the stored session item.  JSON values are
modelled with integer numbers (the claims this client handles carry
integer Unix timestamps, which JSON.parse and JSON.stringify treat
exactly); the recursive-descent parser below follows the JSON grammar
(whitespace skipping, string escapes, integer numbers, nested arrays
and objects, later duplicate keys winning) and is fuelled on a single
argument so that it is structurally recursive and kernel-reducible. -/

inductive JsonValue where
  | str (s : String)
  | num (n : Int)
  | bool (b : Bool)
  | null
  | arr (elems : List JsonValue)
  | obj (fields : List (String × JsonValue))

def isWsC (c : Char) : Bool :=
  c = ' ' || c = '\t' || c = '\n' || c = '\r'

def skipWs : List Char → List Char
  | [] => []
  | c :: rest => if isWsC c then skipWs rest else c :: rest

def isDigitC (c : Char) : Bool :=
  '0' ≤ c && c ≤ '9'

/-- Scanner modes for the body of a JSON string: ordinary characters,
the character after a backslash, and the k remaining digits of a
four-digit unicode escape with the value collected so far. -/
inductive StrMode where
  | normal
  | esc
  | u (k : Nat) (acc : Nat)

/-- Scans the body of a JSON string after its opening quote: literal
characters from 0x20 up, short escapes, and four-digit unicode
escapes; returns the content and the input following the closing
quote. -/
def strBodyGo : StrMode → List Char → Option (List Char × List Char)
  | _, [] => none
  | .normal, c :: rest =>
    if c = '"' then some ([], rest)
    else if c = '\\' then strBodyGo .esc rest
    else if 0x20 ≤ c.toNat then (strBodyGo .normal rest).map (fun p => (c :: p.1, p.2))
    else none
  | .esc, e :: rest =>
    if e = 'u' then strBodyGo (.u 4 0) rest
    else if e = '"' ∨ e = '\\' ∨ e = '/' then
      (strBodyGo .normal rest).map (fun p => (e :: p.1, p.2))
    else if e = 'b' then (strBodyGo .normal rest).map (fun p => (Char.ofNat 8 :: p.1, p.2))
    else if e = 'f' then (strBodyGo .normal rest).map (fun p => (Char.ofNat 12 :: p.1, p.2))
    else if e = 'n' then (strBodyGo .normal rest).map (fun p => (Char.ofNat 10 :: p.1, p.2))
    else if e = 'r' then (strBodyGo .normal rest).map (fun p => (Char.ofNat 13 :: p.1, p.2))
    else if e = 't' then (strBodyGo .normal rest).map (fun p => (Char.ofNat 9 :: p.1, p.2))
    else none
  | .u k acc, c :: rest =>
    match hexVal c with
    | some v =>
      if k ≤ 1 then
        (strBodyGo .normal rest).map (fun p => (Char.ofNat (acc * 16 + v) :: p.1, p.2))
      else strBodyGo (.u (k - 1) (acc * 16 + v)) rest
    | none => none

def parseStringBody (cs : List Char) : Option (List Char × List Char) :=
  strBodyGo .normal cs

def parseDigits : Nat → List Char → Nat × List Char
  | acc, [] => (acc, [])
  | acc, c :: rest =>
    if isDigitC c then parseDigits (acc * 10 + (c.toNat - 48)) rest
    else (acc, c :: rest)

/-- Parses a nonempty run of decimal digits at the head of the
input. -/
def parseNumNat : List Char → Option (Nat × List Char)
  | [] => none
  | c :: rest =>
    if isDigitC c then some (parseDigits (c.toNat - 48) rest)
    else none

def parseNumber : List Char → Option (JsonValue × List Char)
  | [] => none
  | c :: rest =>
    if c = '-' then
      match parseNumNat rest with
      | some p => some (.num (-(p.1 : Int)), p.2)
      | none => none
    else
      match parseNumNat (c :: rest) with
      | some p => some (.num (p.1 : Int), p.2)
      | none => none

inductive PMode where
  | value
  | fields
  | elems

inductive PRes where
  | v (x : JsonValue)
  | fs (x : List (String × JsonValue))
  | es (x : List JsonValue)

def parseCore : Nat → PMode → List Char → Option (PRes × List Char)
  | 0, _, _ => none
  | fuel + 1, .value, cs =>
    match skipWs cs with
    | [] => none
    | c :: rest =>
      if isDigitC c || c = '-' then
        (parseNumber (c :: rest)).map (fun p => (PRes.v p.1, p.2))
      else if c = '"' then
        (parseStringBody rest).map (fun p => (PRes.v (.str (String.mk p.1)), p.2))
      else if c = '{' then
        match skipWs rest with
        | '}' :: rest2 => some (.v (.obj []), rest2)
        | rest2 =>
          match parseCore fuel .fields rest2 with
          | some (.fs flds, rest3) => some (.v (.obj flds), rest3)
          | _ => none
      else if c = '[' then
        match skipWs rest with
        | ']' :: rest2 => some (.v (.arr []), rest2)
        | rest2 =>
          match parseCore fuel .elems rest2 with
          | some (.es es, rest3) => some (.v (.arr es), rest3)
          | _ => none
      else if c = 't' then
        match rest with
        | 'r' :: 'u' :: 'e' :: r => some (.v (.bool true), r)
        | _ => none
      else if c = 'f' then
        match rest with
        | 'a' :: 'l' :: 's' :: 'e' :: r => some (.v (.bool false), r)
        | _ => none
      else if c = 'n' then
        match rest with
        | 'u' :: 'l' :: 'l' :: r => some (.v .null, r)
        | _ => none
      else none
  | fuel + 1, .fields, cs =>
    match skipWs cs with
    | '"' :: rest =>
      match parseStringBody rest with
      | some (key, rest2) =>
        match skipWs rest2 with
        | ':' :: rest3 =>
          match parseCore fuel .value rest3 with
          | some (.v v, rest4) =>
            match skipWs rest4 with
            | ',' :: rest5 =>
              match parseCore fuel .fields rest5 with
              | some (.fs flds, rest6) => some (.fs ((String.mk key, v) :: flds), rest6)
              | _ => none
            | '}' :: rest5 => some (.fs [(String.mk key, v)], rest5)
            | _ => none
          | _ => none
        | _ => none
      | none => none
    | _ => none
  | fuel + 1, .elems, cs =>
    match parseCore fuel .value cs with
    | some (.v v, rest) =>
      match skipWs rest with
      | ',' :: rest2 =>
        match parseCore fuel .elems rest2 with
        | some (.es es, rest3) => some (.es (v :: es), rest3)
        | _ => none
      | ']' :: rest2 => some (.es [v], rest2)
      | _ => none
    | _ => none

/-- Model of JSON.parse: none models a thrown SyntaxError.  The fuel
is one more than the input length, which exceeds the recursion depth
of any input the parser accepts. -/
def jsonParse (s : String) : Option JsonValue :=
  match parseCore (s.length + 1) .value s.data with
  | some (.v v, rest) => if (skipWs rest).isEmpty then some v else none
  | _ => none

/-! ## JSON.stringify for claims objects

Modelled from the spec: the round-trip property encodes a claims
object as JSON before base64url-encoding it into a token payload.
This serializer mirrors JSON.stringify on such objects: key order is
the schema order, strings are quoted with the standard escapes
(lowercase four-digit unicode escapes for other control characters),
integers are printed in decimal, and an absent optional field is
omitted. -/

def digitChar (n : Nat) : Char := Char.ofNat (48 + n)

def natDigitsAux : Nat → Nat → List Char
  | 0, _ => []
  | fuel + 1, n =>
    if n < 10 then [digitChar n]
    else natDigitsAux fuel (n / 10) ++ [digitChar (n % 10)]

def natDigits (n : Nat) : List Char := natDigitsAux (n + 1) n

def intDigits (i : Int) : List Char :=
  if i < 0 then '-' :: natDigits (-i).toNat else natDigits i.toNat

/-- Lowercase hexadecimal digit, as JSON.stringify prints in unicode
escapes. -/
def hexLow (n : Nat) : Char :=
  if n < 10 then Char.ofNat (48 + n) else Char.ofNat (87 + n)

def escapeJsonChar (c : Char) : List Char :=
  if c = '"' then ['\\', '"']
  else if c = '\\' then ['\\', '\\']
  else if c.toNat = 8 then ['\\', 'b']
  else if c.toNat = 9 then ['\\', 't']
  else if c.toNat = 10 then ['\\', 'n']
  else if c.toNat = 12 then ['\\', 'f']
  else if c.toNat = 13 then ['\\', 'r']
  else if c.toNat < 0x20 then ['\\', 'u', '0', '0', hexLow (c.toNat / 16), hexLow (c.toNat % 16)]
  else [c]

def escapeJsonString : List Char → List Char
  | [] => []
  | c :: cs => escapeJsonChar c ++ escapeJsonString cs

/-- Quoted JSON string literal for s. -/
def strLit (s : String) : List Char :=
  '"' :: (escapeJsonString s.data ++ ['"'])

/-! ## IDToken schema and decodeToken (src/core/utils) -/

/-- Claims record of the IDTokenSchema in src/core/utils: required
iss, sub, aud (strings), exp, iat (numbers, integer Unix timestamps)
and an optional at_hash string. -/
structure IDToken where
  iss : String
  sub : String
  aud : String
  exp : Int
  iat : Int
  at_hash : Option String
deriving DecidableEq, Repr

/-- Property access on a parsed JSON object: with duplicate keys the
later one wins, as in JSON.parse. -/
def lookupLast (fields : List (String × JsonValue)) (k : String) : Option JsonValue :=
  fields.foldl (fun acc f => if f.1 = k then some f.2 else acc) none

/-- Model of the superstruct assertion against IDTokenSchema
(s.type with the required fields; extra keys are ignored,
optional(string()) admits an absent key or a string): none models a
thrown StructError. -/
def validateIDToken (j : JsonValue) : Option IDToken :=
  match j with
  | .obj fields =>
    match lookupLast fields "iss", lookupLast fields "sub", lookupLast fields "aud",
          lookupLast fields "exp", lookupLast fields "iat" with
    | some (.str iss), some (.str sub), some (.str aud), some (.num exp), some (.num iat) =>
      match lookupLast fields "at_hash" with
      | none => some ⟨iss, sub, aud, exp, iat, none⟩
      | some (.str h) => some ⟨iss, sub, aud, exp, iat, some h⟩
      | some _ => none
    | _, _, _, _, _ => none
  | _ => none

/-- Failure kinds of decodeToken, one per throw site in the source:
the missing-payload Error('invalid token'), a URIError escaping the
decodeURIComponent call (which sits outside the try block), the
generic Error('invalid token: JSON parse failed'), and a rethrown
superstruct StructError. -/
inductive DecodeError where
  | invalidTokenFormat
  | uriError
  | jsonParseFailed
  | structError
deriving DecidableEq, Repr

/-- Payload segment selection of decodeToken: index 1 of
token.split('.'), with the empty list standing for the undefined of an
out-of-range index (both are falsy to the emptiness check that
follows, exactly as undefined and the empty string are in JS). -/
def extractPayload (token : String) : List Char :=
  (splitDot token.data).getD 1 []

/-- Byte-to-text stage of decodeToken:
decodeURIComponent(escape(Buffer.toString())) over the base64-decoded
payload. -/
def payloadToJson (payload : List Char) : Option String :=
  (decodeURIComponentJs (escapeJs (utf8DecodeLossy (base64Stage payload)))).map String.mk

/-- Processing decodeToken applies to the selected payload segment. -/
def decodePayload (payloadPart : List Char) : Except DecodeError IDToken :=
  if payloadPart.isEmpty then .error .invalidTokenFormat
  else
    match payloadToJson payloadPart with
    | none => .error .uriError
    | some json =>
      match jsonParse json with
      | none => .error .jsonParseFailed
      | some j =>
        match validateIDToken j with
        | none => .error .structError
        | some data => .ok data

/-- Direct translation of decodeToken from src/core/utils. -/
def decodeToken (token : String) : Except DecodeError IDToken :=
  decodePayload (extractPayload token)

/-! ## Encoding side for the round-trip property

Modelled from the spec: a token issuer serializes the claims to JSON,
UTF-8-encodes the text and base64url-encodes the bytes into the
payload segment of a three-segment token.  None of this is in src/,
which only decodes. -/

def stringifyClaimsChars (c : IDToken) : List Char :=
  '{' :: (strLit "iss" ++ ':' :: strLit c.iss)
  ++ ',' :: (strLit "sub" ++ ':' :: strLit c.sub)
  ++ ',' :: (strLit "aud" ++ ':' :: strLit c.aud)
  ++ ',' :: (strLit "exp" ++ ':' :: intDigits c.exp)
  ++ ',' :: (strLit "iat" ++ ':' :: intDigits c.iat)
  ++ (match c.at_hash with
      | some h => ',' :: (strLit "at_hash" ++ ':' :: strLit h)
      | none => [])
  ++ ['}']

def stringifyClaims (c : IDToken) : String :=
  String.mk (stringifyClaimsChars c)

/-- JSON value that jsonParse recovers from stringifyClaims. -/
def claimsToJson (c : IDToken) : JsonValue :=
  .obj ([("iss", .str c.iss), ("sub", .str c.sub), ("aud", .str c.aud),
         ("exp", .num c.exp), ("iat", .num c.iat)]
    ++ (match c.at_hash with
        | some h => [("at_hash", JsonValue.str h)]
        | none => []))

def encodePayload (c : IDToken) : List Char :=
  b64UrlEncode (utf8Encode (stringifyClaimsChars c))

/-- Three-segment token with the given claims in its payload segment
and fixed dot-free header and signature segments. -/
def mkToken (c : IDToken) : String :=
  String.mk ('h' :: '.' :: (encodePayload c ++ ['.', 's']))

/-! ## LogtoClient state (src/client) -/

/-- Discovery document, as far as this client consumes it
(OidcConfigResponse from the collaborator library). -/
structure OidcConfigResponse where
  authorizationEndpoint : String
  tokenEndpoint : String
  endSessionEndpoint : String
  revocationEndpoint : String
  jwksUri : String
deriving DecidableEq, Repr

/-- AccessToken record of src/client: token, scope, absolute expiry in
Unix seconds. -/
structure AccessToken where
  token : String
  scope : String
  expiresAt : Int
deriving DecidableEq, Repr

/-- In-memory fields of LogtoClient: the access-token map keyed by
resource-scope strings, and the idToken and refreshToken fields
(a JS string-or-undefined is an Option String). -/
structure ClientState where
  accessTokenMap : List (String × AccessToken)
  refreshToken : Option String
  idToken : Option String
deriving DecidableEq, Repr

/-- Durable storage slots of this client instance: the namespaced
localStorage keys K:idToken and K:refreshToken, absence standing for
a missing key. -/
structure LocalStorage where
  idTokenSlot : Option String
  refreshTokenSlot : Option String
deriving DecidableEq, Repr

/-- JS truthiness of a string-or-undefined value: undefined and the
empty string are falsy. -/
def strFalsy : Option String → Bool
  | none => true
  | some s => s.isEmpty

/-- Translation of the isAuthenticated getter:
Boolean(this.idToken). -/
def isAuthenticated (st : ClientState) : Bool :=
  !(strFalsy st.idToken)

/-! ## signInSession getter (src/client) -/

/-- LogtoSignInSessionItem record of src/client: the
LogtoSignInSessionItemSchema fields. -/
structure LogtoSignInSessionItem where
  redirectUri : String
  codeVerifier : String
  state : String
deriving DecidableEq, Repr

/-- Model of the superstruct assertion against
LogtoSignInSessionItemSchema (three required strings, extra keys
ignored). -/
def validateSignInSessionItem (j : JsonValue) : Option LogtoSignInSessionItem :=
  match j with
  | .obj fields =>
    match lookupLast fields "redirectUri", lookupLast fields "codeVerifier",
          lookupLast fields "state" with
    | some (.str r), some (.str cv), some (.str st) => some ⟨r, cv, st⟩
    | _, _, _ => none
  | _ => none

/-- Error kinds of LogtoClient as far as the embedded methods throw
them; the signInSession getter wraps any parse or schema failure into
LogtoClientError('sign_in_session.invalid'). -/
inductive ClientError where
  | invalidSignInSession
deriving DecidableEq, Repr

/-- Translation of the signInSession getter: the argument is
sessionStorage.getItem of this client's key (none for a null miss).
A falsy item (null or the empty string) yields undefined; otherwise
the item is JSON-parsed and schema-checked, any failure becoming
LogtoClientError('sign_in_session.invalid'). -/
def signInSessionGet (slot : Option String) :
    Except ClientError (Option LogtoSignInSessionItem) :=
  match slot with
  | none => .ok none
  | some jsonItem =>
    if jsonItem.isEmpty then .ok none
    else
      match jsonParse jsonItem with
      | none => .error .invalidSignInSession
      | some j =>
        match validateSignInSessionItem j with
        | none => .error .invalidSignInSession
        | some item => .ok (some item)

/-! ## signOut (src/client)

The async method is embedded as a state-passing function: the awaited
outcomes of the two external calls (the discovery fetch behind
getOidcConfig, and revoke) are passed in as resolved-or-rejected
values, and the side effects are recorded in program order in a
trace.  The revoke outcome parameter is deliberately unused: the
source wraps the call in a try block whose catch does nothing. -/

/-- Side effects of signOut, in source order: the best-effort
revocation request, the two localStorage.removeItem calls, the three
in-memory clears, and the final window.location.assign. -/
inductive SignOutEffect where
  | revokeCall (revocationEndpoint clientId refreshToken : String)
  | removeStorageIdToken
  | removeStorageRefreshToken
  | clearAccessTokenMap
  | clearIdTokenField
  | clearRefreshTokenField
  | redirect (url : String)
deriving DecidableEq, Repr

/-- Result of a signOut run: the propagated exception if any (none
when the method returns normally), the final in-memory state and
storage, and the ordered effect trace. -/
structure SignOutOutcome where
  error : Option String
  state : ClientState
  storage : LocalStorage
  effects : List SignOutEffect
deriving DecidableEq, Repr

/-- Collaborator generateSignOutUri from the external library, out of
scope per the spec; modelled as a concrete end-session URL builder
(the claims depend only on which URL reaches the redirect). -/
def generateSignOutUri (endSessionEndpoint : String)
    (postLogoutRedirectUri : Option String) (idToken : String) : String :=
  endSessionEndpoint ++ "?id_token_hint=" ++ idToken
    ++ (match postLogoutRedirectUri with
        | some uri => "&post_logout_redirect_uri=" ++ uri
        | none => "")

/-- Translation of LogtoClient.signOut.  The guard, the awaited
discovery fetch, the guarded best-effort revocation, the URL
computation, the storage and in-memory clearing and the final
redirect follow the source line by line. -/
def signOut (st : ClientState) (storage : LocalStorage) (clientId : String)
    (oidcFetch : Except String OidcConfigResponse)
    (revokeOutcome : Except String Unit)
    (postLogoutRedirectUri : Option String) : SignOutOutcome :=
  if strFalsy st.idToken then
    { error := none, state := st, storage := storage, effects := [] }
  else
    match oidcFetch with
    | .error e => { error := some e, state := st, storage := storage, effects := [] }
    | .ok cfg =>
      let idToken := st.idToken.getD ""
      let revokeEffects :=
        if strFalsy st.refreshToken then []
        else [SignOutEffect.revokeCall cfg.revocationEndpoint clientId
                (st.refreshToken.getD "")]
      let url := generateSignOutUri cfg.endSessionEndpoint postLogoutRedirectUri idToken
      { error := none,
        state := { accessTokenMap := [], refreshToken := none, idToken := none },
        storage := { idTokenSlot := none, refreshTokenSlot := none },
        effects := revokeEffects
          ++ [SignOutEffect.removeStorageIdToken, SignOutEffect.removeStorageRefreshToken,
              SignOutEffect.clearAccessTokenMap, SignOutEffect.clearIdTokenField,
              SignOutEffect.clearRefreshTokenField, SignOutEffect.redirect url] }

/-! ## getOidcConfig (src/client) under interleaving

getOidcConfig checks the oidcConfig cache field and, on a miss, awaits
fetchOidcConfig and assigns the result before returning the field.
Each call therefore has two atomic steps separated by the await: the
cache check, and (for calls that missed) the resume that counts one
completed fetch, stores its value and returns it.  A schedule is a
list of such events; fetchVal gives the document each call's fetch
would resolve with. -/

inductive OidcEvent where
  | check (i : Nat)
  | resolve (i : Nat)
deriving DecidableEq, Repr

/-- Global state of one client instance and its in-flight getOidcConfig
calls: the cache field, the number of network fetches performed,
the calls suspended in a fetch, and the values returned to completed
calls. -/
structure OidcRunState where
  oidcConfig : Option OidcConfigResponse
  fetchCount : Nat
  pending : List Nat
  results : List (Nat × OidcConfigResponse)
deriving DecidableEq, Repr

def oidcStep (fetchVal : Nat → OidcConfigResponse) (s : OidcRunState) :
    OidcEvent → OidcRunState
  | .check i =>
    match s.oidcConfig with
    | some v => { s with results := (i, v) :: s.results }
    | none => { s with pending := i :: s.pending }
  | .resolve i =>
    if s.pending.contains i then
      { oidcConfig := some (fetchVal i), fetchCount := s.fetchCount + 1,
        pending := s.pending.erase i, results := (i, fetchVal i) :: s.results }
    else s

def oidcInit : OidcRunState :=
  { oidcConfig := none, fetchCount := 0, pending := [], results := [] }

def oidcRun (fetchVal : Nat → OidcConfigResponse) (events : List OidcEvent) : OidcRunState :=
  events.foldl (oidcStep fetchVal) oidcInit

/-- Two concrete distinct discovery documents for counterexample runs. -/
def oidcCfgA : OidcConfigResponse :=
  { authorizationEndpoint := "https://a.example/auth", tokenEndpoint := "https://a.example/token",
    endSessionEndpoint := "https://a.example/end", revocationEndpoint := "https://a.example/revoke",
    jwksUri := "https://a.example/jwks" }

def oidcCfgB : OidcConfigResponse :=
  { authorizationEndpoint := "https://b.example/auth", tokenEndpoint := "https://b.example/token",
    endSessionEndpoint := "https://b.example/end", revocationEndpoint := "https://b.example/revoke",
    jwksUri := "https://b.example/jwks" }

def oidcFetchValAB (i : Nat) : OidcConfigResponse :=
  if i = 0 then oidcCfgA else oidcCfgB

/-! ## Statement-level predicates -/

/-- Characters of the string all lie in the ASCII range. -/
def asciiString (s : String) : Prop :=
  ∀ c ∈ s.data, c.toNat < 0x80

/-- Every string field of the claims record is ASCII. -/
def claimsAscii (c : IDToken) : Prop :=
  asciiString c.iss ∧ asciiString c.sub ∧ asciiString c.aud ∧
    (∀ h, c.at_hash = some h → asciiString h)

/-- The input does not begin with a decimal digit (the shape of the
text following a serialized number). -/
def headNotDigit : List Char → Prop
  | [] => True
  | c :: _ => isDigitC c = false

/-! # Helper lemmas -/

theorem strFalsy_false {o : Option String} {t : String} (h : o = some t) (hne : t ≠ "") :
    strFalsy o = false := by
  subst h
  simp only [strFalsy]
  cases hemp : t.isEmpty with
  | true => exact absurd ((String.isEmpty_iff t).mp hemp) hne
  | false => rfl

theorem splitDot_ne_nil (l : List Char) : splitDot l ≠ [] := by
  induction l with
  | nil => simp [splitDot]
  | cons c rest ih =>
    by_cases hc : c = '.'
    · simp [splitDot, hc]
    · simp only [splitDot, if_neg hc]
      rcases hsp : splitDot rest with _ | ⟨a, b⟩ <;> simp

theorem splitDot_no_dot {l : List Char} (h : '.' ∉ l) : splitDot l = [l] := by
  induction l with
  | nil => rfl
  | cons c rest ih =>
    have hc : c ≠ '.' := fun e => h (by simp [e])
    have hr : '.' ∉ rest := fun m => h (List.mem_cons_of_mem _ m)
    simp [splitDot, if_neg hc, ih hr]

theorem splitDot_append {xs : List Char} (rest : List Char) (h : '.' ∉ xs) :
    splitDot (xs ++ '.' :: rest) = xs :: splitDot rest := by
  induction xs with
  | nil => simp [splitDot]
  | cons c xs ih =>
    have hc : c ≠ '.' := fun e => h (by simp [e])
    have hx : '.' ∉ xs := fun m => h (List.mem_cons_of_mem _ m)
    simp [splitDot, if_neg hc, ih hx]

/-! ## Base64 lemmas -/

theorem b64CharVal_std : ∀ v, v < 64 → b64CharVal (b64StdChar v) = some v := by decide

theorem urlToStd_url : ∀ v, v < 64 → urlToStdChar (b64UrlChar v) = b64StdChar v := by decide

theorem b64UrlChar_ne_dot : ∀ v, v < 64 → b64UrlChar v ≠ '.' := by decide

theorem b64Sextets_lt (bs : List Nat) (hb : ∀ b ∈ bs, b < 256) :
    ∀ v ∈ b64Sextets bs, v < 64 := by
  induction bs using b64Sextets.induct with
  | case1 b1 b2 b3 rest ih =>
    have h1 : b1 < 256 := hb _ (by simp)
    have h2 : b2 < 256 := hb _ (by simp)
    have h3 : b3 < 256 := hb _ (by simp)
    intro v hv
    simp only [b64Sextets, List.mem_cons] at hv
    rcases hv with rfl | rfl | rfl | rfl | hv
    · omega
    · omega
    · omega
    · omega
    · exact ih (fun b m => hb b (by simp [m])) v hv
  | case2 b1 b2 =>
    have h1 : b1 < 256 := hb _ (by simp)
    have h2 : b2 < 256 := hb _ (by simp)
    intro v hv
    simp only [b64Sextets, List.mem_cons] at hv
    rcases hv with rfl | rfl | rfl | hv
    · omega
    · omega
    · omega
    · simp at hv
  | case3 b1 =>
    have h1 : b1 < 256 := hb _ (by simp)
    intro v hv
    simp only [b64Sextets, List.mem_cons] at hv
    rcases hv with rfl | rfl | hv
    · omega
    · omega
    · simp at hv
  | case4 => intro v hv; simp [b64Sextets] at hv

theorem filterMap_id_of_some {α : Type} (f : α → Option α) :
    ∀ l : List α, (∀ x ∈ l, f x = some x) → l.filterMap f = l := by
  intro l
  induction l with
  | nil => simp
  | cons a l ih =>
    intro h
    simp [List.filterMap_cons, h a (by simp), ih (fun x m => h x (by simp [m]))]

theorem b64Go_sextets (bs : List Nat) (hb : ∀ b ∈ bs, b < 256) :
    b64Go (b64Sextets bs) = bs := by
  induction bs using b64Sextets.induct with
  | case1 b1 b2 b3 rest ih =>
    have h1 : b1 < 256 := hb _ (by simp)
    have h2 : b2 < 256 := hb _ (by simp)
    have h3 : b3 < 256 := hb _ (by simp)
    simp only [b64Sextets, b64Go]
    rw [ih (fun b m => hb b (by simp [m]))]
    simp only [List.cons.injEq, and_true]
    refine ⟨by omega, by omega, by omega⟩
  | case2 b1 b2 =>
    have h1 : b1 < 256 := hb _ (by simp)
    have h2 : b2 < 256 := hb _ (by simp)
    simp only [b64Sextets, b64Go]
    simp only [List.cons.injEq, and_true]
    refine ⟨by omega, by omega⟩
  | case3 b1 =>
    have h1 : b1 < 256 := hb _ (by simp)
    simp only [b64Sextets, b64Go]
    simp only [List.cons.injEq, and_true]
    omega
  | case4 => rfl

theorem base64Stage_encode (bs : List Nat) (hb : ∀ b ∈ bs, b < 256) :
    base64Stage (b64UrlEncode bs) = bs := by
  have hsx := b64Sextets_lt bs hb
  have hmap : (b64UrlEncode bs).map urlToStdChar = (b64Sextets bs).map b64StdChar := by
    unfold b64UrlEncode
    rw [List.map_map]
    exact List.map_congr_left (fun v hv => urlToStd_url v (hsx v hv))
  have hfm : ∀ tail : List Char, (∀ x ∈ tail, b64CharVal x = none) →
      (((b64Sextets bs).map b64StdChar ++ tail).filterMap b64CharVal) = b64Sextets bs := by
    intro tail htail
    rw [List.filterMap_append, List.filterMap_map]
    have h1 : (b64Sextets bs).filterMap (b64CharVal ∘ b64StdChar) = b64Sextets bs := by
      refine filterMap_id_of_some _ _ (fun v hv => ?_)
      simpa using b64CharVal_std v (hsx v hv)
    have h2 : tail.filterMap b64CharVal = [] := by
      simp [List.filterMap_eq_nil_iff]
      intro a ha
      exact htail a ha
    rw [h1, h2, List.append_nil]
  unfold base64Stage nodeBase64Decode fullfillBase64
  rw [hmap]
  set q := (b64Sextets bs).map b64StdChar with hq
  by_cases hl2 : (String.mk q).length = 2
  · rw [if_pos hl2]
    show b64Go (((String.mk q) ++ "==").data.filterMap b64CharVal) = bs
    rw [String.data_append]
    show b64Go ((q ++ ['=', '=']).filterMap b64CharVal) = bs
    rw [hfm ['=', '='] (by decide)]
    exact b64Go_sextets bs hb
  · rw [if_neg hl2]
    by_cases hl3 : (String.mk q).length = 3
    · rw [if_pos hl3]
      show b64Go (((String.mk q) ++ "=").data.filterMap b64CharVal) = bs
      rw [String.data_append]
      show b64Go ((q ++ ['=']).filterMap b64CharVal) = bs
      rw [hfm ['='] (by decide)]
      exact b64Go_sextets bs hb
    · rw [if_neg hl3]
      show b64Go ((String.mk q).data.filterMap b64CharVal) = bs
      show b64Go (q.filterMap b64CharVal) = bs
      have := hfm [] (by simp)
      rw [List.append_nil] at this
      rw [this]
      exact b64Go_sextets bs hb

theorem b64UrlEncode_len_mod (bs : List Nat) : (b64UrlEncode bs).length % 4 ≠ 1 := by
  unfold b64UrlEncode
  rw [List.length_map]
  induction bs using b64Sextets.induct with
  | case1 b1 b2 b3 rest ih => simp only [b64Sextets, List.length_cons]; omega
  | case2 b1 b2 => simp [b64Sextets]
  | case3 b1 => simp [b64Sextets]
  | case4 => simp [b64Sextets]

/-! ## UTF-8 lemmas (ASCII fragment) -/

theorem utf8EncodeChar_ascii {c : Char} (h : c.toNat < 0x80) :
    utf8EncodeChar c = [c.toNat] := by
  simp [utf8EncodeChar, h]

theorem utf8Encode_ascii (l : List Char) (h : ∀ c ∈ l, c.toNat < 0x80) :
    utf8Encode l = l.map Char.toNat := by
  induction l with
  | nil => rfl
  | cons c ls ih =>
    simp only [utf8Encode, List.map_cons]
    rw [utf8EncodeChar_ascii (h c (by simp)), ih (fun x m => h x (by simp [m]))]
    rfl

theorem utf8DecodeAux_ascii :
    ∀ (fuel : Nat) (bs : List Nat), bs.length < fuel → (∀ b ∈ bs, b < 0x80) →
      utf8DecodeAux fuel bs = bs.map Char.ofNat := by
  intro fuel
  induction fuel with
  | zero => intro bs h _; exact absurd h (Nat.not_lt_zero _)
  | succ fuel ih =>
    intro bs hlen hb
    cases bs with
    | nil => simp [utf8DecodeAux]
    | cons b rest =>
      have hb0 : b < 0x80 := hb _ (by simp)
      simp only [utf8DecodeAux, if_pos hb0, List.map_cons]
      congr 1
      refine ih rest ?_ (fun x m => hb x (by simp [m]))
      simp only [List.length_cons] at hlen
      omega

theorem utf8_roundtrip_ascii (l : List Char) (h : ∀ c ∈ l, c.toNat < 0x80) :
    utf8DecodeLossy (utf8Encode l) = l := by
  rw [utf8Encode_ascii l h]
  unfold utf8DecodeLossy
  rw [utf8DecodeAux_ascii _ _ (by simp) ?hb]
  case hb =>
    intro b m
    rcases List.mem_map.mp m with ⟨c, hc, rfl⟩
    exact h c hc
  rw [List.map_map]
  conv_rhs => rw [← List.map_id l]
  exact List.map_congr_left (fun c _ => Char.ofNat_toNat c)

/-! ## escape and decodeURIComponent lemmas (ASCII fragment) -/

theorem escapeJsChar_length_pos (c : Char) : 1 ≤ (escapeJsChar c).length := by
  unfold escapeJsChar
  split
  · simp
  · split <;> simp

theorem escapeJs_length_ge : ∀ l : List Char, l.length ≤ (escapeJs l).length := by
  intro l
  induction l with
  | nil => simp [escapeJs]
  | cons c ls ih =>
    simp only [escapeJs, List.length_append, List.length_cons]
    have := escapeJsChar_length_pos c
    omega

theorem hexVal_hexUp : ∀ n, n < 16 → hexVal (hexUp n) = some n := by decide

theorem escapeUnreserved_ne_pct {c : Char} (h : escapeUnreserved c = true) : c ≠ '%' := by
  intro e
  subst e
  exact absurd h (by decide)


theorem pctTokens_escape (l : List Char) (h : ∀ c ∈ l, c.toNat < 0x80) :
    pctTokens (escapeJs l) =
      some (l.map (fun c => if escapeUnreserved c then Sum.inl c else Sum.inr c.toNat)) := by
  induction l with
  | nil => rfl
  | cons c ls ih =>
    have hc : c.toNat < 0x80 := h c (by simp)
    have hrec := ih (fun x m => h x (by simp [m]))
    show pctTokens (escapeJsChar c ++ escapeJs ls) = _
    by_cases hu : escapeUnreserved c
    · have hpc : c ≠ '%' := escapeUnreserved_ne_pct hu
      have hstep : pctTokens (c :: escapeJs ls)
          = (pctTokens (escapeJs ls)).map (Sum.inl c :: ·) := by
        rcases hsh : escapeJs ls with _ | ⟨d, _ | ⟨d2, ds⟩⟩ <;>
          simp only [pctTokens, if_neg hpc]
      simp only [escapeJsChar, if_pos hu, List.cons_append, List.nil_append, List.map_cons]
      rw [hstep, hrec]
      simp [if_pos hu]
    · have h256 : c.toNat < 256 := by omega
      simp only [escapeJsChar, if_neg hu, if_pos h256, List.cons_append, List.nil_append,
        List.map_cons]
      simp only [pctTokens, if_pos rfl]
      rw [hexVal_hexUp (c.toNat / 16) (by omega), hexVal_hexUp (c.toNat % 16) (by omega)]
      have hb : c.toNat / 16 * 16 + c.toNat % 16 = c.toNat := by omega
      rw [hrec]
      simp [hb, if_neg hu]

theorem utf8Assemble_ascii :
    ∀ (fuel : Nat) (l : List Char), l.length < fuel → (∀ c ∈ l, c.toNat < 0x80) →
      utf8Assemble fuel
        (l.map (fun c => if escapeUnreserved c then Sum.inl c else Sum.inr c.toNat)) = some l := by
  intro fuel
  induction fuel with
  | zero => intro l h _; exact absurd h (Nat.not_lt_zero _)
  | succ fuel ih =>
    intro l hlen hasc
    cases l with
    | nil => simp [utf8Assemble]
    | cons c ls =>
      have hc : c.toNat < 0x80 := hasc c (by simp)
      have hrec : utf8Assemble fuel
          (ls.map (fun c => if escapeUnreserved c then Sum.inl c else Sum.inr c.toNat))
            = some ls := by
        refine ih ls ?_ (fun x m => hasc x (by simp [m]))
        simp only [List.length_cons] at hlen
        omega
      simp only [List.map_cons]
      by_cases hu : escapeUnreserved c
      · simp only [if_pos hu]
        show (utf8Assemble fuel _).map (c :: ·) = _
        rw [hrec]
        rfl
      · simp only [if_neg hu]
        show (if c.toNat < 0x80 then (utf8Assemble fuel _).map (Char.ofNat c.toNat :: ·)
              else _) = _
        rw [if_pos hc, hrec]
        simp [Char.ofNat_toNat]

theorem duri_escape_ascii (l : List Char) (h : ∀ c ∈ l, c.toNat < 0x80) :
    decodeURIComponentJs (escapeJs l) = some l := by
  unfold decodeURIComponentJs
  rw [pctTokens_escape l h]
  show utf8Assemble _ _ = some l
  rw [List.length_map]
  exact utf8Assemble_ascii (l.length + 1) l (Nat.lt_succ_self _) h

/-! ## Decimal digit lemmas -/

theorem isDigitC_digitChar : ∀ d, d < 10 → isDigitC (digitChar d) = true := by decide

theorem digitChar_toNat : ∀ d, d < 10 → (digitChar d).toNat = 48 + d := by decide

theorem hexVal_hexLow : ∀ n, n < 16 → hexVal (hexLow n) = some n := by decide

theorem isDigitC_ne_dash {c : Char} (h : isDigitC c = true) : c ≠ '-' := by
  intro e
  subst e
  exact absurd h (by decide)

theorem isDigitC_not_ws {c : Char} (h : isDigitC c = true) : isWsC c = false := by
  cases hcw : isWsC c with
  | false => rfl
  | true =>
    simp only [isWsC, Bool.or_eq_true, decide_eq_true_eq] at hcw
    rcases hcw with ((e | e) | e) | e <;> (subst e; exact absurd h (by decide))

theorem natDigitsAux_irrel :
    ∀ f1 : Nat, ∀ f2 n : Nat, n < f1 → n < f2 → natDigitsAux f1 n = natDigitsAux f2 n := by
  intro f1
  induction f1 with
  | zero => intro f2 n h1 _; omega
  | succ f1 ih =>
    intro f2 n h1 h2
    cases f2 with
    | zero => omega
    | succ f2 =>
      simp only [natDigitsAux]
      by_cases h : n < 10
      · simp [h]
      · simp only [if_neg h]
        rw [ih f2 (n / 10) (by omega) (by omega)]

theorem natDigits_unfold (n : Nat) :
    natDigits n = if n < 10 then [digitChar n]
      else natDigits (n / 10) ++ [digitChar (n % 10)] := by
  by_cases h : n < 10
  · simp [natDigits, natDigitsAux, h]
  · rw [if_neg h]
    show natDigitsAux (n + 1) n = natDigitsAux (n / 10 + 1) (n / 10) ++ [digitChar (n % 10)]
    have hunf : natDigitsAux (n + 1) n
        = if n < 10 then [digitChar n] else natDigitsAux n (n / 10) ++ [digitChar (n % 10)] := by
      simp only [natDigitsAux]
    rw [hunf, if_neg h]
    congr 1
    exact natDigitsAux_irrel n (n / 10 + 1) (n / 10) (by omega) (by omega)

theorem natDigits_head (n : Nat) :
    ∃ c cs, natDigits n = c :: cs ∧ isDigitC c = true := by
  induction n using Nat.strong_induction_on with
  | _ n ih =>
    rw [natDigits_unfold]
    by_cases h : n < 10
    · exact ⟨digitChar n, [], by simp [h], isDigitC_digitChar n h⟩
    · obtain ⟨c, cs, hshape, hdig⟩ := ih (n / 10) (by omega)
      exact ⟨c, cs ++ [digitChar (n % 10)], by simp [if_neg h, hshape], hdig⟩

theorem parseDigits_natDigits :
    ∀ n acc rest, parseDigits acc (natDigits n ++ rest)
      = parseDigits (acc * 10 ^ (natDigits n).length + n) rest := by
  intro n
  induction n using Nat.strong_induction_on with
  | _ n ih =>
    intro acc rest
    rw [natDigits_unfold]
    by_cases h : n < 10
    · simp only [if_pos h, List.cons_append, List.nil_append, List.length_cons,
        List.length_nil]
      simp only [parseDigits, isDigitC_digitChar n h, if_true, digitChar_toNat n h]
      have harith : acc * 10 + (48 + n - 48) = acc * 10 ^ (0 + 1) + n := by
        have : (10 : Nat) ^ (0 + 1) = 10 := by norm_num
        rw [this]
        omega
      rw [harith]
    · simp only [if_neg h, List.append_assoc, List.singleton_append, List.length_append,
        List.length_cons, List.length_nil]
      rw [ih (n / 10) (by omega) acc (digitChar (n % 10) :: rest)]
      have hd : n % 10 < 10 := by omega
      simp only [parseDigits, isDigitC_digitChar (n % 10) hd, if_true,
        digitChar_toNat (n % 10) hd]
      set k := (natDigits (n / 10)).length
      have harith : (acc * 10 ^ k + n / 10) * 10 + (48 + n % 10 - 48)
          = acc * 10 ^ (k + (0 + 1)) + n := by
        have hmod : n / 10 * 10 + n % 10 = n := by omega
        have hsub : 48 + n % 10 - 48 = n % 10 := by omega
        calc (acc * 10 ^ k + n / 10) * 10 + (48 + n % 10 - 48)
            = acc * (10 ^ k * 10) + (n / 10 * 10 + n % 10) := by rw [hsub]; ring
          _ = acc * 10 ^ (k + (0 + 1)) + n := by
              rw [hmod]
              norm_num [pow_succ]
      rw [harith]

theorem parseDigits_stop (acc : Nat) (rest : List Char) (h : headNotDigit rest) :
    parseDigits acc rest = (acc, rest) := by
  cases rest with
  | nil => rfl
  | cons c r =>
    simp only [headNotDigit] at h
    simp [parseDigits, h]

theorem parseNumNat_natDigits (n : Nat) (rest : List Char) (h : headNotDigit rest) :
    parseNumNat (natDigits n ++ rest) = some (n, rest) := by
  obtain ⟨c, cs, hshape, hdig⟩ := natDigits_head n
  have h0 : parseDigits 0 (natDigits n ++ rest) = parseDigits (c.toNat - 48) (cs ++ rest) := by
    rw [hshape]
    simp [parseDigits, hdig]
  have h1 : parseDigits 0 (natDigits n ++ rest) = (n, rest) := by
    rw [parseDigits_natDigits n 0 rest, Nat.zero_mul, Nat.zero_add, parseDigits_stop n rest h]
  rw [hshape, List.cons_append]
  simp only [parseNumNat, hdig, if_true]
  rw [← h0, h1]

theorem parseNumber_intDigits (i : Int) (rest : List Char) (h : headNotDigit rest) :
    parseNumber (intDigits i ++ rest) = some (.num i, rest) := by
  unfold intDigits
  by_cases hi : i < 0
  · simp only [if_pos hi, List.cons_append]
    simp only [parseNumber, if_pos rfl]
    rw [parseNumNat_natDigits ((-i).toNat) rest h]
    have hval : -(((-i).toNat : Nat) : Int) = i := by omega
    show some (JsonValue.num (-(((-i).toNat : Nat) : Int)), rest) = some (JsonValue.num i, rest)
    rw [hval]
  · simp only [if_neg hi]
    obtain ⟨c, cs, hshape, hdig⟩ := natDigits_head i.toNat
    rw [hshape, List.cons_append]
    simp only [parseNumber, if_neg (isDigitC_ne_dash hdig)]
    rw [← List.cons_append, ← hshape, parseNumNat_natDigits i.toNat rest h]
    have hval : ((i.toNat : Nat) : Int) = i := by omega
    show some (JsonValue.num ((i.toNat : Nat) : Int), rest) = some (JsonValue.num i, rest)
    rw [hval]

/-! ## JSON string body lemmas -/

theorem strBodyGo_u_escape (a b : Nat) (ha : a < 16) (hb : b < 16) (T : List Char) :
    strBodyGo .normal ('\\' :: 'u' :: '0' :: '0' :: hexLow a :: hexLow b :: T)
      = (strBodyGo .normal T).map (fun p => (Char.ofNat (a * 16 + b) :: p.1, p.2)) := by
  have s1 : strBodyGo .normal ('\\' :: 'u' :: '0' :: '0' :: hexLow a :: hexLow b :: T)
      = strBodyGo .esc ('u' :: '0' :: '0' :: hexLow a :: hexLow b :: T) := by
    simp [strBodyGo]
  have s2 : strBodyGo .esc ('u' :: '0' :: '0' :: hexLow a :: hexLow b :: T)
      = strBodyGo (.u 4 0) ('0' :: '0' :: hexLow a :: hexLow b :: T) := by
    simp [strBodyGo]
  have s3 : strBodyGo (.u 4 0) ('0' :: '0' :: hexLow a :: hexLow b :: T)
      = strBodyGo (.u 3 0) ('0' :: hexLow a :: hexLow b :: T) := by
    simp [strBodyGo, show hexVal '0' = some 0 from rfl]
  have s4 : strBodyGo (.u 3 0) ('0' :: hexLow a :: hexLow b :: T)
      = strBodyGo (.u 2 0) (hexLow a :: hexLow b :: T) := by
    simp [strBodyGo, show hexVal '0' = some 0 from rfl]
  have s5 : strBodyGo (.u 2 0) (hexLow a :: hexLow b :: T)
      = strBodyGo (.u 1 a) (hexLow b :: T) := by
    simp [strBodyGo, hexVal_hexLow a ha]
  have s6 : strBodyGo (.u 1 a) (hexLow b :: T)
      = (strBodyGo .normal T).map (fun p => (Char.ofNat (a * 16 + b) :: p.1, p.2)) := by
    simp [strBodyGo, hexVal_hexLow b hb]
  rw [s1, s2, s3, s4, s5, s6]

theorem strBodyGo_escape :
    ∀ (s : List Char) (rest : List Char),
      strBodyGo .normal (escapeJsonString s ++ '"' :: rest) = some (s, rest) := by
  intro s
  induction s with
  | nil => intro rest; simp [escapeJsonString, strBodyGo]
  | cons c cs ih =>
    intro rest
    show strBodyGo .normal ((escapeJsonChar c ++ escapeJsonString cs) ++ '"' :: rest) = _
    rw [List.append_assoc]
    by_cases h1 : c = '"'
    · subst h1
      simp only [escapeJsonChar, if_pos rfl]
      simp [strBodyGo, ih rest]
    · by_cases h2 : c = '\\'
      · subst h2
        simp only [escapeJsonChar]
        simp [strBodyGo, ih rest]
      · by_cases h3 : c.toNat = 8
        · have hcv : c = Char.ofNat 8 := by rw [← h3, Char.ofNat_toNat]
          subst hcv
          simp only [escapeJsonChar]
          simp [strBodyGo, ih rest]
        · by_cases h4 : c.toNat = 9
          · have hcv : c = Char.ofNat 9 := by rw [← h4, Char.ofNat_toNat]
            subst hcv
            simp only [escapeJsonChar]
            simp [strBodyGo, ih rest]
          · by_cases h5 : c.toNat = 10
            · have hcv : c = Char.ofNat 10 := by rw [← h5, Char.ofNat_toNat]
              subst hcv
              simp only [escapeJsonChar]
              simp [strBodyGo, ih rest]
            · by_cases h6 : c.toNat = 12
              · have hcv : c = Char.ofNat 12 := by rw [← h6, Char.ofNat_toNat]
                subst hcv
                simp only [escapeJsonChar]
                simp [strBodyGo, ih rest]
              · by_cases h7 : c.toNat = 13
                · have hcv : c = Char.ofNat 13 := by rw [← h7, Char.ofNat_toNat]
                  subst hcv
                  simp only [escapeJsonChar]
                  simp [strBodyGo, ih rest]
                · by_cases h8 : c.toNat < 0x20
                  · simp only [escapeJsonChar, if_neg h1, if_neg h2, if_neg h3, if_neg h4,
                      if_neg h5, if_neg h6, if_neg h7, if_pos h8, List.cons_append,
                      List.nil_append]
                    rw [strBodyGo_u_escape (c.toNat / 16) (c.toNat % 16) (by omega) (by omega)]
                    have hv : c.toNat / 16 * 16 + c.toNat % 16 = c.toNat := by omega
                    rw [hv, Char.ofNat_toNat, ih rest]
                    rfl
                  · simp only [escapeJsonChar, if_neg h1, if_neg h2, if_neg h3, if_neg h4,
                      if_neg h5, if_neg h6, if_neg h7, if_neg h8, List.cons_append,
                      List.nil_append]
                    simp only [strBodyGo, if_neg h1, if_neg h2, if_pos (by omega : 0x20 ≤ c.toNat)]
                    rw [ih rest]
                    rfl

theorem parseStringBody_escape (s rest : List Char) :
    parseStringBody (escapeJsonString s ++ '"' :: rest) = some (s, rest) :=
  strBodyGo_escape s rest

theorem skipWs_not_ws {c : Char} (h : isWsC c = false) (l : List Char) :
    skipWs (c :: l) = c :: l := by
  simp [skipWs, h]

theorem parseCore_value_str (fuel : Nat) (s : String) (tail : List Char) :
    parseCore (fuel + 1) .value (strLit s ++ tail) = some (.v (.str s), tail) := by
  have hshape : strLit s ++ tail = '"' :: (escapeJsonString s.data ++ '"' :: tail) := by
    simp [strLit]
  rw [hshape]
  have hstep : parseCore (fuel + 1) .value ('"' :: (escapeJsonString s.data ++ '"' :: tail))
      = (parseStringBody (escapeJsonString s.data ++ '"' :: tail)).map
          (fun p => (PRes.v (.str (String.mk p.1)), p.2)) := rfl
  rw [hstep, parseStringBody_escape s.data tail]
  rfl

theorem parseCore_value_num_head (fuel : Nat) (c : Char) (X : List Char)
    (hd : (isDigitC c || c = '-') = true) (hw : isWsC c = false) :
    parseCore (fuel + 1) .value (c :: X)
      = (parseNumber (c :: X)).map (fun p => (PRes.v p.1, p.2)) := by
  simp only [parseCore]
  rw [skipWs_not_ws hw X]
  simp only [hd]
  rfl

theorem parseCore_value_int (fuel : Nat) (i : Int) (tail : List Char) (h : headNotDigit tail) :
    parseCore (fuel + 1) .value (intDigits i ++ tail) = some (.v (.num i), tail) := by
  by_cases hi : i < 0
  · have hsh1 : intDigits i = '-' :: natDigits (-i).toNat := by simp [intDigits, if_pos hi]
    rw [show intDigits i ++ tail = '-' :: (natDigits (-i).toNat ++ tail) from by
      rw [hsh1]; rfl]
    rw [parseCore_value_num_head fuel '-' _ (by decide) (by decide)]
    rw [← List.cons_append, ← hsh1, parseNumber_intDigits i tail h]
    rfl
  · have hsh1 : intDigits i = natDigits i.toNat := by simp [intDigits, if_neg hi]
    obtain ⟨c, cs, hsh, hdig⟩ := natDigits_head i.toNat
    rw [show intDigits i ++ tail = c :: (cs ++ tail) from by rw [hsh1, hsh]; rfl]
    rw [parseCore_value_num_head fuel c _ (by simp [hdig]) (isDigitC_not_ws hdig)]
    rw [← List.cons_append, ← hsh, ← hsh1, parseNumber_intDigits i tail h]
    rfl

theorem parseCore_fields_last (fuel : Nat) (k : String) (vchars : List Char) (v : JsonValue)
    (rest : List Char)
    (hv : parseCore fuel .value (vchars ++ '}' :: rest) = some (.v v, '}' :: rest)) :
    parseCore (fuel + 1) .fields (strLit k ++ ':' :: (vchars ++ '}' :: rest))
      = some (.fs [(k, v)], rest) := by
  rw [show strLit k ++ ':' :: (vchars ++ '}' :: rest)
      = '"' :: (escapeJsonString k.data ++ '"' :: (':' :: (vchars ++ '}' :: rest))) from by
    simp [strLit]]
  simp only [parseCore, skipWs_not_ws (show isWsC '"' = false from by decide),
    parseStringBody_escape, skipWs_not_ws (show isWsC ':' = false from by decide), hv,
    skipWs_not_ws (show isWsC '}' = false from by decide)]

theorem parseCore_fields_cons (fuel : Nat) (k : String) (vchars : List Char) (v : JsonValue)
    (rest rest2 : List Char) (flds : List (String × JsonValue))
    (hv : parseCore fuel .value (vchars ++ ',' :: rest) = some (.v v, ',' :: rest))
    (hf : parseCore fuel .fields rest = some (.fs flds, rest2)) :
    parseCore (fuel + 1) .fields (strLit k ++ ':' :: (vchars ++ ',' :: rest))
      = some (.fs ((k, v) :: flds), rest2) := by
  rw [show strLit k ++ ':' :: (vchars ++ ',' :: rest)
      = '"' :: (escapeJsonString k.data ++ '"' :: (':' :: (vchars ++ ',' :: rest))) from by
    simp [strLit]]
  simp only [parseCore, skipWs_not_ws (show isWsC '"' = false from by decide),
    parseStringBody_escape, skipWs_not_ws (show isWsC ':' = false from by decide), hv,
    skipWs_not_ws (show isWsC ',' = false from by decide), hf]

theorem parseCore_value_obj (fuel : Nat) (k : String) (R tail : List Char)
    (flds : List (String × JsonValue))
    (hf : parseCore fuel .fields (strLit k ++ ':' :: R) = some (.fs flds, tail)) :
    parseCore (fuel + 1) .value ('{' :: (strLit k ++ ':' :: R))
      = some (.v (.obj flds), tail) := by
  rw [show strLit k ++ ':' :: R = '"' :: (escapeJsonString k.data ++ '"' :: ':' :: R) from by
    simp [strLit]] at hf ⊢
  simp only [parseCore, skipWs_not_ws (show isWsC '{' = false from by decide),
    skipWs_not_ws (show isWsC '"' = false from by decide)]
  simp only [show isDigitC '{' = false from rfl, show decide ('{' = '-') = false from rfl,
    Bool.or_self, Bool.false_or, if_false, if_neg (show ¬('{' = '"') from by decide),
    if_neg (show ¬('{' = '[') from by decide), if_neg (show ¬('{' = 't') from by decide),
    if_neg (show ¬('{' = 'f') from by decide), if_neg (show ¬('{' = 'n') from by decide),
    if_pos rfl]
  simp [hf]

theorem parseCore_claims (fuel : Nat) (c : IDToken) :
    parseCore (fuel + 8) .value (stringifyClaimsChars c)
      = some (.v (claimsToJson c), []) := by
  cases hah : c.at_hash with
  | none =>
    have h5 := parseCore_fields_last (fuel + 2) "iat" (intDigits c.iat) (.num c.iat) []
      (parseCore_value_int (fuel + 1) c.iat ('}' :: []) (by constructor))
    have h4 := parseCore_fields_cons (fuel + 3) "exp" (intDigits c.exp) (.num c.exp) _ _ _
      (parseCore_value_int (fuel + 2) c.exp _ (by constructor)) h5
    have h3 := parseCore_fields_cons (fuel + 4) "aud" (strLit c.aud) (.str c.aud) _ _ _
      (parseCore_value_str (fuel + 3) c.aud _) h4
    have h2 := parseCore_fields_cons (fuel + 5) "sub" (strLit c.sub) (.str c.sub) _ _ _
      (parseCore_value_str (fuel + 4) c.sub _) h3
    have h1 := parseCore_fields_cons (fuel + 6) "iss" (strLit c.iss) (.str c.iss) _ _ _
      (parseCore_value_str (fuel + 5) c.iss _) h2
    have hshape : stringifyClaimsChars c
        = '{' :: (strLit "iss" ++ ':' :: (strLit c.iss ++ ',' ::
            (strLit "sub" ++ ':' :: (strLit c.sub ++ ',' ::
            (strLit "aud" ++ ':' :: (strLit c.aud ++ ',' ::
            (strLit "exp" ++ ':' :: (intDigits c.exp ++ ',' ::
            (strLit "iat" ++ ':' :: (intDigits c.iat ++ '}' :: [])))))))))) := by
      simp [stringifyClaimsChars, hah, List.append_assoc]
    rw [hshape]
    have := parseCore_value_obj (fuel + 7) "iss" _ _ _ h1
    rw [this]
    simp [claimsToJson, hah]
  | some ah =>
    have h6 := parseCore_fields_last (fuel + 1) "at_hash" (strLit ah) (.str ah) []
      (parseCore_value_str fuel ah _)
    have h5 := parseCore_fields_cons (fuel + 2) "iat" (intDigits c.iat) (.num c.iat) _ _ _
      (parseCore_value_int (fuel + 1) c.iat _ (by constructor)) h6
    have h4 := parseCore_fields_cons (fuel + 3) "exp" (intDigits c.exp) (.num c.exp) _ _ _
      (parseCore_value_int (fuel + 2) c.exp _ (by constructor)) h5
    have h3 := parseCore_fields_cons (fuel + 4) "aud" (strLit c.aud) (.str c.aud) _ _ _
      (parseCore_value_str (fuel + 3) c.aud _) h4
    have h2 := parseCore_fields_cons (fuel + 5) "sub" (strLit c.sub) (.str c.sub) _ _ _
      (parseCore_value_str (fuel + 4) c.sub _) h3
    have h1 := parseCore_fields_cons (fuel + 6) "iss" (strLit c.iss) (.str c.iss) _ _ _
      (parseCore_value_str (fuel + 5) c.iss _) h2
    have hshape : stringifyClaimsChars c
        = '{' :: (strLit "iss" ++ ':' :: (strLit c.iss ++ ',' ::
            (strLit "sub" ++ ':' :: (strLit c.sub ++ ',' ::
            (strLit "aud" ++ ':' :: (strLit c.aud ++ ',' ::
            (strLit "exp" ++ ':' :: (intDigits c.exp ++ ',' ::
            (strLit "iat" ++ ':' :: (intDigits c.iat ++ ',' ::
            (strLit "at_hash" ++ ':' :: (strLit ah ++ '}' :: [])))))))))))) := by
      simp [stringifyClaimsChars, hah, List.append_assoc]
    rw [hshape]
    have := parseCore_value_obj (fuel + 7) "iss" _ _ _ h1
    rw [this]
    simp [claimsToJson, hah]

theorem jsonParse_stringify (c : IDToken) :
    jsonParse (stringifyClaims c) = some (claimsToJson c) := by
  unfold jsonParse stringifyClaims
  rw [show (String.mk (stringifyClaimsChars c)).data = stringifyClaimsChars c from rfl]
  rw [show (String.mk (stringifyClaimsChars c)).length = (stringifyClaimsChars c).length from rfl]
  have hlen : 7 ≤ (stringifyClaimsChars c).length := by
    cases hah : c.at_hash <;>
      (simp [stringifyClaimsChars, strLit, hah, List.length_append]; omega)
  obtain ⟨m, hm⟩ : ∃ m, (stringifyClaimsChars c).length + 1 = m + 8 :=
    ⟨(stringifyClaimsChars c).length - 7, by omega⟩
  rw [hm, parseCore_claims m c]
  rfl

theorem validateIDToken_claims (c : IDToken) : validateIDToken (claimsToJson c) = some c := by
  cases c with
  | mk iss sub aud exp iat at_hash =>
    cases at_hash with
    | none => simp [claimsToJson, validateIDToken, lookupLast]
    | some h => simp [claimsToJson, validateIDToken, lookupLast]

/-! ## ASCII propagation through the serializer -/

theorem hexLow_ascii : ∀ n, n < 16 → (hexLow n).toNat < 0x80 := by decide

theorem escapeJsonChar_ascii {c : Char} (h : c.toNat < 0x80) :
    ∀ x ∈ escapeJsonChar c, x.toNat < 0x80 := by
  intro x hx
  unfold escapeJsonChar at hx
  by_cases h1 : c = '"'
  · rw [if_pos h1] at hx
    fin_cases hx <;> decide
  · rw [if_neg h1] at hx
    by_cases h2 : c = '\\'
    · rw [if_pos h2] at hx
      fin_cases hx <;> decide
    · rw [if_neg h2] at hx
      by_cases h3 : c.toNat = 8
      · rw [if_pos h3] at hx
        fin_cases hx <;> decide
      · rw [if_neg h3] at hx
        by_cases h4 : c.toNat = 9
        · rw [if_pos h4] at hx
          fin_cases hx <;> decide
        · rw [if_neg h4] at hx
          by_cases h5 : c.toNat = 10
          · rw [if_pos h5] at hx
            fin_cases hx <;> decide
          · rw [if_neg h5] at hx
            by_cases h6 : c.toNat = 12
            · rw [if_pos h6] at hx
              fin_cases hx <;> decide
            · rw [if_neg h6] at hx
              by_cases h7 : c.toNat = 13
              · rw [if_pos h7] at hx
                fin_cases hx <;> decide
              · rw [if_neg h7] at hx
                by_cases h8 : c.toNat < 0x20
                · rw [if_pos h8] at hx
                  fin_cases hx
                  · decide
                  · decide
                  · decide
                  · decide
                  · exact hexLow_ascii _ (by omega)
                  · exact hexLow_ascii _ (by omega)
                · rw [if_neg h8] at hx
                  fin_cases hx
                  exact h

theorem escapeJsonString_ascii {l : List Char} (h : ∀ c ∈ l, c.toNat < 0x80) :
    ∀ x ∈ escapeJsonString l, x.toNat < 0x80 := by
  induction l with
  | nil => intro x hx; simp [escapeJsonString] at hx
  | cons c cs ih =>
    intro x hx
    simp only [escapeJsonString, List.mem_append] at hx
    rcases hx with hx | hx
    · exact escapeJsonChar_ascii (h c (by simp)) x hx
    · exact ih (fun y m => h y (by simp [m])) x hx

theorem strLit_ascii {s : String} (h : ∀ c ∈ s.data, c.toNat < 0x80) :
    ∀ x ∈ strLit s, x.toNat < 0x80 := by
  intro x hx
  simp only [strLit, List.mem_cons, List.mem_append] at hx
  rcases hx with e | hx | hx
  · subst e; decide
  · exact escapeJsonString_ascii h x hx
  · simp at hx; subst hx; decide

theorem natDigits_ascii (n : Nat) : ∀ x ∈ natDigits n, x.toNat < 0x80 := by
  induction n using Nat.strong_induction_on with
  | _ n ih =>
    intro x hx
    rw [natDigits_unfold] at hx
    by_cases h : n < 10
    · rw [if_pos h] at hx
      simp at hx
      subst hx
      have := digitChar_toNat n h
      omega
    · rw [if_neg h] at hx
      simp only [List.mem_append] at hx
      rcases hx with hx | hx
      · exact ih (n / 10) (by omega) x hx
      · simp at hx
        subst hx
        have := digitChar_toNat (n % 10) (by omega)
        omega

theorem intDigits_ascii (i : Int) : ∀ x ∈ intDigits i, x.toNat < 0x80 := by
  intro x hx
  unfold intDigits at hx
  by_cases hi : i < 0
  · rw [if_pos hi] at hx
    rcases List.mem_cons.mp hx with e | hx
    · subst e; decide
    · exact natDigits_ascii _ x hx
  · rw [if_neg hi] at hx
    exact natDigits_ascii _ x hx

theorem ascii_append {l1 l2 : List Char} (h1 : ∀ c ∈ l1, c.toNat < 0x80)
    (h2 : ∀ c ∈ l2, c.toNat < 0x80) : ∀ c ∈ l1 ++ l2, c.toNat < 0x80 := by
  intro c hc
  rcases List.mem_append.mp hc with hc | hc
  · exact h1 c hc
  · exact h2 c hc

theorem ascii_cons {c0 : Char} (h0 : c0.toNat < 0x80) {l : List Char}
    (h : ∀ c ∈ l, c.toNat < 0x80) : ∀ c ∈ c0 :: l, c.toNat < 0x80 := by
  intro c hc
  rcases List.mem_cons.mp hc with e | hc
  · subst e; exact h0
  · exact h c hc

theorem stringifyClaimsChars_ascii (c : IDToken) (hc : claimsAscii c) :
    ∀ ch ∈ stringifyClaimsChars c, ch.toNat < 0x80 := by
  obtain ⟨hiss, hsub, haud, hahf⟩ := hc
  have hA : ∀ x ∈ strLit "iss" ++ ':' :: strLit c.iss, x.toNat < 0x80 :=
    ascii_append (strLit_ascii (by decide)) (ascii_cons (by decide) (strLit_ascii hiss))
  have hB : ∀ x ∈ ',' :: (strLit "sub" ++ ':' :: strLit c.sub), x.toNat < 0x80 :=
    ascii_cons (by decide)
      (ascii_append (strLit_ascii (by decide)) (ascii_cons (by decide) (strLit_ascii hsub)))
  have hC : ∀ x ∈ ',' :: (strLit "aud" ++ ':' :: strLit c.aud), x.toNat < 0x80 :=
    ascii_cons (by decide)
      (ascii_append (strLit_ascii (by decide)) (ascii_cons (by decide) (strLit_ascii haud)))
  have hD : ∀ x ∈ ',' :: (strLit "exp" ++ ':' :: intDigits c.exp), x.toNat < 0x80 :=
    ascii_cons (by decide)
      (ascii_append (strLit_ascii (by decide)) (ascii_cons (by decide) (intDigits_ascii _)))
  have hE : ∀ x ∈ ',' :: (strLit "iat" ++ ':' :: intDigits c.iat), x.toNat < 0x80 :=
    ascii_cons (by decide)
      (ascii_append (strLit_ascii (by decide)) (ascii_cons (by decide) (intDigits_ascii _)))
  cases hah : c.at_hash with
  | none =>
    simp only [stringifyClaimsChars, hah]
    exact ascii_append (ascii_append (ascii_append (ascii_append (ascii_append
      (ascii_append (ascii_cons (by decide) hA) hB) hC) hD) hE) (by simp)) (by decide)
  | some ah =>
    have hF : ∀ x ∈ ',' :: (strLit "at_hash" ++ ':' :: strLit ah), x.toNat < 0x80 :=
      ascii_cons (by decide)
        (ascii_append (strLit_ascii (by decide))
          (ascii_cons (by decide) (strLit_ascii (hahf ah hah))))
    simp only [stringifyClaimsChars, hah]
    exact ascii_append (ascii_append (ascii_append (ascii_append (ascii_append
      (ascii_append (ascii_cons (by decide) hA) hB) hC) hD) hE) hF) (by decide)

/-! ## Payload encoding lemmas -/

theorem utf8Encode_lt_of_ascii {l : List Char} (h : ∀ c ∈ l, c.toNat < 0x80) :
    ∀ b ∈ utf8Encode l, b < 256 := by
  rw [utf8Encode_ascii l h]
  intro b hb
  rcases List.mem_map.mp hb with ⟨c, hcmem, rfl⟩
  have := h c hcmem
  omega

theorem encodePayload_no_dot (c : IDToken) (hc : claimsAscii c) : '.' ∉ encodePayload c := by
  intro hd
  unfold encodePayload b64UrlEncode at hd
  rcases List.mem_map.mp hd with ⟨v, hv, he⟩
  have hlt := b64Sextets_lt _ (utf8Encode_lt_of_ascii (stringifyClaimsChars_ascii c hc)) v hv
  exact b64UrlChar_ne_dot v hlt he

theorem stringifyClaimsChars_ne_nil (c : IDToken) : stringifyClaimsChars c ≠ [] := by
  cases hah : c.at_hash <;>
    (intro h; have hl := congrArg List.length h; simp [stringifyClaimsChars, hah] at hl)

theorem utf8EncodeChar_ne_nil (c : Char) : utf8EncodeChar c ≠ [] := by
  simp only [utf8EncodeChar]
  split
  · simp
  · split
    · simp
    · split <;> simp

theorem utf8Encode_ne_nil {l : List Char} (h : l ≠ []) : utf8Encode l ≠ [] := by
  cases l with
  | nil => exact absurd rfl h
  | cons c cs =>
    show utf8EncodeChar c ++ utf8Encode cs ≠ []
    intro he
    rcases List.append_eq_nil.mp he with ⟨h1, _⟩
    exact utf8EncodeChar_ne_nil c h1

theorem b64Sextets_ne_nil {bs : List Nat} (h : bs ≠ []) : b64Sextets bs ≠ [] := by
  cases bs with
  | nil => exact absurd rfl h
  | cons b1 rest =>
    cases rest with
    | nil => simp [b64Sextets]
    | cons b2 rest2 => cases rest2 <;> simp [b64Sextets]

theorem encodePayload_ne_nil (c : IDToken) : encodePayload c ≠ [] := by
  unfold encodePayload b64UrlEncode
  intro h
  exact b64Sextets_ne_nil (utf8Encode_ne_nil (stringifyClaimsChars_ne_nil c))
    (List.map_eq_nil_iff.mp h)

theorem extractPayload_mkToken (c : IDToken) (hc : claimsAscii c) :
    extractPayload (mkToken c) = encodePayload c := by
  unfold extractPayload mkToken
  rw [show (String.mk ('h' :: '.' :: (encodePayload c ++ ['.', 's']))).data
      = 'h' :: '.' :: (encodePayload c ++ ['.', 's']) from rfl]
  have h0 : splitDot ('h' :: '.' :: (encodePayload c ++ ['.', 's']))
      = ['h'] :: splitDot (encodePayload c ++ ['.', 's']) := rfl
  rw [h0, splitDot_append ['s'] (encodePayload_no_dot c hc)]
  rfl

theorem payloadToJson_encodePayload (c : IDToken) (hc : claimsAscii c) :
    payloadToJson (encodePayload c) = some (stringifyClaims c) := by
  unfold payloadToJson encodePayload
  have hascii := stringifyClaimsChars_ascii c hc
  rw [base64Stage_encode _ (utf8Encode_lt_of_ascii hascii)]
  rw [utf8_roundtrip_ascii _ hascii]
  rw [duri_escape_ascii _ hascii]
  rfl

theorem getD_one_of_len_le {α : Type} (l : List α) (d : α) (h : l.length ≤ 1) :
    l.getD 1 d = d := by
  cases l with
  | nil => rfl
  | cons a t =>
    cases t with
    | nil => rfl
    | cons b t2 => simp at h

/-! # Claims -/

/-- C1 (counterexample): fullfillBase64 does not restore padding for an
unpadded payload of length 6 (length mod 4 = 2): it appends nothing, so
the decoder input is not padded to a multiple of 4, contradicting the
claim that a remainder-2 payload gets a double-equals appended. -/
theorem fullfillBase64_counterexample :
    fullfillBase64 "abcdef" = "abcdef" ∧ "abcdef".length % 4 = 2 ∧
      fullfillBase64 "abcdef" ≠ "abcdef" ++ "==" ∧
      (fullfillBase64 "abcdef").length % 4 ≠ 0 := by
  refine ⟨rfl, rfl, ?_, ?_⟩ <;> decide

/-- C1 (amended): fullfillBase64 appends double-equals only when the
payload's total length is exactly 2 and a single equals only when it is
exactly 3, passing every other length through unpadded; nevertheless the
base64 stage of decodeToken recovers the original bytes from every
unpadded base64url payload because the Node decoder tolerates missing
padding, and such payloads never have length 1 mod 4. -/
theorem fullfillBase64_amended :
    (∀ s : String, s.length = 2 → fullfillBase64 s = s ++ "==") ∧
    (∀ s : String, s.length = 3 → fullfillBase64 s = s ++ "=") ∧
    (∀ s : String, s.length ≠ 2 → s.length ≠ 3 → fullfillBase64 s = s) ∧
    (∀ bs : List Nat, (∀ b ∈ bs, b < 256) → base64Stage (b64UrlEncode bs) = bs) ∧
    (∀ bs : List Nat, (b64UrlEncode bs).length % 4 ≠ 1) := by
  refine ⟨?_, ?_, ?_, base64Stage_encode, b64UrlEncode_len_mod⟩
  · intro s h; simp [fullfillBase64, h]
  · intro s h; simp [fullfillBase64, h]
  · intro s h2 h3; simp [fullfillBase64, h2, h3]

/-- C1 witness: the amended claim evaluated at a length-2 payload and a
three-byte list. -/
theorem fullfillBase64_amended_witness :
    fullfillBase64 "ab" = "ab" ++ "==" ∧
      base64Stage (b64UrlEncode [104, 105, 255]) = [104, 105, 255] :=
  ⟨fullfillBase64_amended.1 "ab" (by decide),
   fullfillBase64_amended.2.2.2.1 [104, 105, 255] (by decide)⟩

/-- C2: two getOidcConfig calls that both check the empty cache before
either fetch resolves each perform a network fetch (fetchCount 2, not
at most 1), and the two callers can observe different resolved
documents; the claim that discovery is fetched at most once across
concurrent callers fails on this interleaving. -/
theorem getOidcConfig_concurrent_double_fetch :
    (oidcRun oidcFetchValAB
      [.check 0, .check 1, .resolve 0, .resolve 1]).fetchCount = 2 ∧
    (0, oidcCfgA) ∈ (oidcRun oidcFetchValAB
      [.check 0, .check 1, .resolve 0, .resolve 1]).results ∧
    (1, oidcCfgB) ∈ (oidcRun oidcFetchValAB
      [.check 0, .check 1, .resolve 0, .resolve 1]).results ∧
    oidcCfgA ≠ oidcCfgB := by
  refine ⟨rfl, ?_, ?_, ?_⟩ <;> decide

/-- C3: signOut with a held ID token and refresh token, whose revocation
call rejects: the error is swallowed (outcome error is none), the
durable storage slots, the access-token map and the in-memory token
fields all end cleared, and the effect trace shows the revocation
attempt, then the storage and memory clears, then the end-session
redirect last, so clearing happens before the redirect. -/
theorem signOut_revocation_swallowed (st : ClientState) (storage : LocalStorage)
    (clientId : String) (cfg : OidcConfigResponse) (e : String) (post : Option String)
    (t rt : String) (hid : st.idToken = some t) (htne : t ≠ "")
    (hrt : st.refreshToken = some rt) (hrtne : rt ≠ "") :
    signOut st storage clientId (.ok cfg) (.error e) post =
      { error := none,
        state := { accessTokenMap := [], refreshToken := none, idToken := none },
        storage := { idTokenSlot := none, refreshTokenSlot := none },
        effects := [SignOutEffect.revokeCall cfg.revocationEndpoint clientId rt,
          .removeStorageIdToken, .removeStorageRefreshToken, .clearAccessTokenMap,
          .clearIdTokenField, .clearRefreshTokenField,
          .redirect (generateSignOutUri cfg.endSessionEndpoint post t)] } := by
  have hf1 : strFalsy (some t) = false := strFalsy_false rfl htne
  have hf2 : strFalsy (some rt) = false := strFalsy_false rfl hrtne
  simp [signOut, hid, hrt, hf1, hf2]

/-- C3 witness: a concrete authenticated client whose revocation call
fails still ends signed out with the redirect issued last. -/
theorem signOut_revocation_swallowed_witness :
    signOut
        { accessTokenMap := [("r", { token := "at", scope := "s", expiresAt := 10 })],
          refreshToken := some "rt", idToken := some "idt" }
        { idTokenSlot := some "idt", refreshTokenSlot := some "rt" }
        "cid" (.ok oidcCfgA) (.error "revocation rejected") (some "https://app.example/") =
      { error := none,
        state := { accessTokenMap := [], refreshToken := none, idToken := none },
        storage := { idTokenSlot := none, refreshTokenSlot := none },
        effects := [SignOutEffect.revokeCall oidcCfgA.revocationEndpoint "cid" "rt",
          .removeStorageIdToken, .removeStorageRefreshToken, .clearAccessTokenMap,
          .clearIdTokenField, .clearRefreshTokenField,
          .redirect (generateSignOutUri oidcCfgA.endSessionEndpoint
            (some "https://app.example/") "idt")] } :=
  signOut_revocation_swallowed _ _ _ _ _ _ "idt" "rt" rfl (by decide) rfl (by decide)

/-- C4: a failed discovery fetch during signOut while an ID token is
held propagates the error, performs no effect, leaves the state and
storage untouched, and the client is still authenticated afterwards. -/
theorem signOut_discovery_error_propagates (st : ClientState) (storage : LocalStorage)
    (clientId : String) (e : String) (rres : Except String Unit) (post : Option String)
    (t : String) (hid : st.idToken = some t) (htne : t ≠ "") :
    signOut st storage clientId (.error e) rres post
        = { error := some e, state := st, storage := storage, effects := [] } ∧
      isAuthenticated (signOut st storage clientId (.error e) rres post).state = true := by
  have h1 : signOut st storage clientId (.error e) rres post
      = { error := some e, state := st, storage := storage, effects := [] } := by
    have hf1 : strFalsy (some t) = false := strFalsy_false rfl htne
    simp [signOut, hid, hf1]
  refine ⟨h1, ?_⟩
  rw [h1]
  simp [isAuthenticated, hid, strFalsy_false (rfl : some t = some t) htne]

/-- C4 witness: a concrete authenticated client whose discovery fetch
fails keeps all its token state. -/
theorem signOut_discovery_error_propagates_witness :
    signOut { accessTokenMap := [], refreshToken := some "rt", idToken := some "idt" }
        { idTokenSlot := some "idt", refreshTokenSlot := some "rt" }
        "cid" (.error "discovery down") (.ok ()) none =
      { error := some "discovery down",
        state := { accessTokenMap := [], refreshToken := some "rt", idToken := some "idt" },
        storage := { idTokenSlot := some "idt", refreshTokenSlot := some "rt" },
        effects := [] } :=
  (signOut_discovery_error_propagates _ _ _ _ _ _ "idt" rfl (by decide)).1

/-- C5: a token whose split on dots yields at most one segment (no
payload segment) makes decodeToken fail with the invalid-token-format
error. -/
theorem decodeToken_missing_payload (token : String)
    (h : (splitDot token.data).length ≤ 1) :
    decodeToken token = .error .invalidTokenFormat := by
  unfold decodeToken extractPayload
  rw [getD_one_of_len_le _ _ h]
  rfl

/-- C5 witness: a one-segment token fails with the format error. -/
theorem decodeToken_missing_payload_witness :
    decodeToken "abc" = .error .invalidTokenFormat :=
  decodeToken_missing_payload "abc" (by decide)

/-- C6: once decodeToken has extracted a payload and decoded it to a
text, a text that fails to parse as JSON produces the generic
JSON-parse-failed error while a text that parses but fails the claims
schema produces the distinct superstruct error, and the two error kinds
are different values, never coerced into one another. -/
theorem decodeToken_error_kinds :
    (∀ (token : String) (json : String),
      extractPayload token ≠ [] →
      payloadToJson (extractPayload token) = some json →
      ((jsonParse json = none → decodeToken token = .error .jsonParseFailed) ∧
       (∀ j, jsonParse json = some j → validateIDToken j = none →
          decodeToken token = .error .structError))) ∧
    DecodeError.jsonParseFailed ≠ DecodeError.structError := by
  refine ⟨?_, by decide⟩
  intro token json hne hj
  have hemp : (extractPayload token).isEmpty = false := by
    cases hx : extractPayload token with
    | nil => exact absurd hx hne
    | cons a b => rfl
  constructor
  · intro hp
    simp [decodeToken, decodePayload, hemp, hj, hp]
  · intro j hpj hv
    simp [decodeToken, decodePayload, hemp, hj, hpj, hv]

/-- C6 witness: a payload decoding to non-JSON text gives the parse
error, and a payload decoding to an empty JSON object gives the schema
error. -/
theorem decodeToken_error_kinds_witness :
    decodeToken "h.bm90anNvbg" = .error .jsonParseFailed ∧
    decodeToken "h.e30" = .error .structError :=
  ⟨(decodeToken_error_kinds.1 "h.bm90anNvbg" "notjson" (by decide) (by rfl)).1 (by rfl),
   (decodeToken_error_kinds.1 "h.e30" "\x7b\x7d" (by decide) (by rfl)).2
     (JsonValue.obj []) (by rfl) (by rfl)⟩

/-- C7 (counterexample): a claims object whose issuer contains a
non-ASCII character does not survive the round trip: decodeToken throws
a URIError (the percent-escape of the decoded character is not valid
UTF-8 for decodeURIComponent) instead of returning the claims. -/
theorem decodeToken_roundtrip_counterexample :
    decodeToken (mkToken
        { iss := "é", sub := "s", aud := "a", exp := 1, iat := 1, at_hash := none })
      = .error .uriError ∧
    decodeToken (mkToken
        { iss := "é", sub := "s", aud := "a", exp := 1, iat := 1, at_hash := none })
      ≠ .ok { iss := "é", sub := "s", aud := "a", exp := 1, iat := 1, at_hash := none } := by
  constructor
  · rfl
  · intro h
    rw [show decodeToken (mkToken
        { iss := "é", sub := "s", aud := "a", exp := 1, iat := 1, at_hash := none })
      = .error .uriError from rfl] at h
    cases h

/-- C7 (amended): for every claims object whose string fields are all
ASCII, serializing it to JSON, UTF-8-encoding and base64url-encoding it
into the payload segment of a three-segment token, and applying
decodeToken yields the original claims object back. -/
theorem decodeToken_roundtrip_ascii (c : IDToken) (hc : claimsAscii c) :
    decodeToken (mkToken c) = .ok c := by
  unfold decodeToken
  rw [extractPayload_mkToken c hc]
  have hni : (encodePayload c).isEmpty = false := by
    cases hx : encodePayload c with
    | nil => exact absurd hx (encodePayload_ne_nil c)
    | cons a b => rfl
  simp [decodePayload, hni, payloadToJson_encodePayload c hc, jsonParse_stringify c,
    validateIDToken_claims c]

/-- C7 witness: a concrete ASCII claims object round trips through
token encoding and decodeToken. -/
theorem decodeToken_roundtrip_ascii_witness :
    decodeToken (mkToken
        { iss := "https://iss.example", sub := "user-1", aud := "client-1",
          exp := 1700000000, iat := 1699990000, at_hash := some "abc" })
      = .ok
        { iss := "https://iss.example", sub := "user-1", aud := "client-1",
          exp := 1700000000, iat := 1699990000, at_hash := some "abc" } := by
  refine decodeToken_roundtrip_ascii _
    ⟨by unfold asciiString; decide, by unfold asciiString; decide,
     by unfold asciiString; decide, ?_⟩
  intro h hh
  cases hh
  unfold asciiString
  decide

/-- C8: signOut while no ID token is held is a no-op: no error, no state
change, no storage change, and an empty effect trace (no revocation, no
storage writes, no redirect). -/
theorem signOut_noop_without_idToken (st : ClientState) (storage : LocalStorage)
    (clientId : String) (fetch : Except String OidcConfigResponse)
    (rres : Except String Unit) (post : Option String) (hid : st.idToken = none) :
    signOut st storage clientId fetch rres post
      = { error := none, state := st, storage := storage, effects := [] } := by
  unfold signOut
  rw [hid]
  rfl

/-- C8 witness: a signed-out client stays untouched by signOut. -/
theorem signOut_noop_without_idToken_witness :
    signOut { accessTokenMap := [], refreshToken := none, idToken := none }
        { idTokenSlot := none, refreshTokenSlot := none } "cid" (.ok oidcCfgA) (.ok ()) none
      = { error := none,
          state := { accessTokenMap := [], refreshToken := none, idToken := none },
          storage := { idTokenSlot := none, refreshTokenSlot := none },
          effects := [] } :=
  signOut_noop_without_idToken _ _ _ _ _ _ rfl

/-- C9 (counterexample): an empty string stored in the session slot is
present and is not valid JSON, yet the signInSession getter returns
absent instead of failing with the invalid-sign-in-session error,
because the source guards with a JS falsiness check that treats the
empty string like a null miss. -/
theorem signInSessionGet_counterexample :
    signInSessionGet (some "") = .ok none ∧ jsonParse "" = none ∧
      (Except.ok (none : Option LogtoSignInSessionItem)
        ≠ (.error .invalidSignInSession :
            Except ClientError (Option LogtoSignInSessionItem))) :=
  ⟨rfl, rfl, fun h => Except.noConfusion h⟩

/-- C9 (amended): the signInSession getter returns absent when the slot
was never set and also when it holds the empty string (JS falsiness);
every other stored value that fails to parse as JSON or fails the
session-item schema gives the invalid-sign-in-session error; and a
returned item always comes from a successful parse and schema check,
never a default or partial value. -/
theorem signInSessionGet_amended :
    signInSessionGet none = .ok none ∧
    signInSessionGet (some "") = .ok none ∧
    (∀ s : String, s ≠ "" → jsonParse s = none →
      signInSessionGet (some s) = .error .invalidSignInSession) ∧
    (∀ (s : String) (j : JsonValue), jsonParse s = some j →
      validateSignInSessionItem j = none →
      signInSessionGet (some s) = .error .invalidSignInSession) ∧
    (∀ (s : String) (item : LogtoSignInSessionItem),
      signInSessionGet (some s) = .ok (some item) →
      ∃ j, jsonParse s = some j ∧ validateSignInSessionItem j = some item) := by
  have hemp_of_ne : ∀ s : String, s ≠ "" → s.isEmpty = false := by
    intro s hne
    cases he : s.isEmpty with
    | true => exact absurd ((String.isEmpty_iff s).mp he) hne
    | false => rfl
  refine ⟨rfl, rfl, ?_, ?_, ?_⟩
  · intro s hne hp
    simp [signInSessionGet, hemp_of_ne s hne, hp]
  · intro s j hpj hv
    have hne : s ≠ "" := by
      intro e
      subst e
      rw [show jsonParse "" = none from rfl] at hpj
      cases hpj
    simp [signInSessionGet, hemp_of_ne s hne, hpj, hv]
  · intro s item hok
    by_cases he : s.isEmpty = true
    · simp [signInSessionGet, he] at hok
    · rcases hp : jsonParse s with _ | j
      · simp [signInSessionGet, he, hp] at hok
      · rcases hv : validateSignInSessionItem j with _ | item2
        · simp [signInSessionGet, he, hp, hv] at hok
        · simp [signInSessionGet, he, hp, hv] at hok
          exact ⟨j, rfl, by rw [hv, hok]⟩

/-- C9 witness: the amended claim applied to a present non-empty value
that is not valid JSON. -/
theorem signInSessionGet_amended_witness :
    signInSessionGet (some "\x7b") = .error .invalidSignInSession :=
  signInSessionGet_amended.2.2.1 "\x7b" (by decide) (by rfl)

/-- C10: decodeToken depends only on the second dot-separated segment:
tokens with identical payload segments decode identically whatever
their header and signature segments hold, and every token whose payload
segment is non-empty passes the format check (never fails with the
invalid-token-format error), including two-segment tokens and tokens
with more than three segments. -/
theorem decodeToken_payload_only :
    (∀ t1 t2 : String, extractPayload t1 = extractPayload t2 →
      decodeToken t1 = decodeToken t2) ∧
    (∀ t : String, extractPayload t ≠ [] →
      decodeToken t ≠ .error .invalidTokenFormat) := by
  constructor
  · intro t1 t2 h
    unfold decodeToken
    rw [h]
  · intro t h
    have hemp : (extractPayload t).isEmpty = false := by
      cases hx : extractPayload t with
      | nil => exact absurd hx h
      | cons a b => rfl
    unfold decodeToken decodePayload
    rw [hemp]
    rcases hp : payloadToJson (extractPayload t) with _ | json
    · simp [hp]
    · rcases hpj : jsonParse json with _ | j
      · simp [hp, hpj]
      · rcases hv : validateIDToken j with _ | d <;> simp [hp, hpj, hv]

/-- C10 witness: a four-segment token and a two-segment token with the
same payload segment decode identically, and a two-segment token passes
the format check. -/
theorem decodeToken_payload_only_witness :
    decodeToken "a.e30.c.d" = decodeToken "x.e30" ∧
      decodeToken "h.e30" ≠ .error .invalidTokenFormat :=
  ⟨decodeToken_payload_only.1 "a.e30.c.d" "x.e30" (by rfl),
   decodeToken_payload_only.2 "h.e30" (by decide)⟩
